import Mathlib

/-!
Verification of `src/AWS-S3/s3-bucket-info.py`, a single-file tool that
queries S3 bucket configuration facets and renders them in a YAML-like
format.  Python strings are modelled as `List Char`; Python `dict`
responses as ordered association lists; the boto3 `ClientError` as a
structure carrying code, message and optional HTTP status.  Whitespace
(for `str.strip`) is modelled by the ASCII whitespace characters.
-/

namespace BucketInfo

/-- Python strings, modelled as lists of characters. -/
abbrev Str := List Char

/-- Conversion from a Lean string literal to the model type. -/
def str (s : String) : Str := s.data

/-- The single-quote character. -/
def sq : Char := Char.ofNat 39

/-- The double-quote character. -/
def dq : Char := Char.ofNat 34

/-- The newline character. -/
def nl : Char := Char.ofNat 10

/-- The backtick character. -/
def bt : Char := Char.ofNat 96

/-- The opening curly brace character. -/
def lb : Char := Char.ofNat 123

/-- The closing curly brace character. -/
def rb : Char := Char.ofNat 125

/-- ASCII whitespace, the model of the character class stripped by Python's
`str.strip` (space, tab, newline, vertical tab, form feed, carriage return). -/
def isPySpace (c : Char) : Bool :=
  c = ' ' || c = Char.ofNat 9 || c = Char.ofNat 10 || c = Char.ofNat 11
    || c = Char.ofNat 12 || c = Char.ofNat 13

/-- Model of Python's `s.strip()`: drop whitespace from both ends. -/
def pyStrip (s : Str) : Str :=
  ((s.dropWhile isPySpace).reverse.dropWhile isPySpace).reverse

/-- Model of Python's `str.lower` on the ASCII range. -/
def pyLowerChar (c : Char) : Char :=
  if 65 ≤ c.toNat ∧ c.toNat ≤ 90 then Char.ofNat (c.toNat + 32) else c

/-- Lower-casing of a whole string (`s.lower()`). -/
def pyLower (s : Str) : Str := s.map pyLowerChar

/-- Membership of a character in a string (`c in s`). -/
def strHasChar : Str → Char → Bool
  | [], _ => false
  | c :: rest, a => c = a || strHasChar rest a

/-- Whether the first character of a string satisfies `p` (false when empty). -/
def headSat (p : Char → Bool) : Str → Bool
  | [] => false
  | c :: _ => p c

/-- Whether the last character of a string satisfies `p` (false when empty). -/
def lastSat (p : Char → Bool) (s : Str) : Bool :=
  match s.getLast? with
  | some c => p c
  | none => false

/-- The special characters of `_yaml_escape_str`, in source order. -/
def specialChars : Str :=
  [':', lb, rb, '[', ']', ',', '#', '&', '*', '!', '|', '>', '%', '@', bt]

/-- The YAML reserved words of `_yaml_escape_str`. -/
def reservedWords : List Str :=
  [str "null", str "true", str "false", str "yes", str "no", str "on", str "off"]

/-- Characters tested by the source's `s[0] in "-?@"`. -/
def dashQmAtChars : Str := ['-', '?', '@']

/-- Characters tested by the source's `s.startswith(("~", "=", "<", ">", ...))`
including the two quote characters. -/
def tildeStartChars : Str := ['~', '=', '<', '>', dq, sq]

/-- The quoting condition of `_yaml_escape_str` (source lines 57-65),
disjunct for disjunct in source order. -/
def needs_quotes (s : Str) : Bool :=
  decide (s = [])
  || decide (pyStrip s ≠ s)
  || specialChars.any (fun c => strHasChar s c)
  || strHasChar s nl
  || decide (pyLower s ∈ reservedWords)
  || headSat (fun c => strHasChar dashQmAtChars c) s
  || headSat (fun c => strHasChar tildeStartChars c) s

/-- Doubling of embedded single quotes (`s.replace("'", "''")`). -/
def doubleQuotes : Str → Str
  | [] => []
  | c :: rest => if c = sq then sq :: sq :: doubleQuotes rest else c :: doubleQuotes rest

/-- Model of `_yaml_escape_str` (source lines 55-69): wrap in single quotes,
doubling embedded single quotes, exactly when `needs_quotes` holds. -/
def yaml_escape_str (s : Str) : Str :=
  if needs_quotes s then sq :: (doubleQuotes s ++ [sq]) else s

/-- Un-doubling of single quotes, scanning left to right
(`inner.replace("''", "'")`). -/
def undoubleQuotes : Str → Str
  | [] => []
  | [c] => [c]
  | c1 :: c2 :: rest =>
    if c1 = sq && c2 = sq then sq :: undoubleQuotes rest
    else c1 :: undoubleQuotes (c2 :: rest)

/-- Stripping one layer of wrapping: drop the first and the last character. -/
def stripOuter (s : Str) : Str := (s.drop 1).dropLast

/-- The quoting trigger as the spec words it: empty, leading or trailing
whitespace, a special character, a newline, a reserved word up to case, or a
marker first character (the start characters written as one merged set). -/
def claimTrigger (s : Str) : Bool :=
  decide (s = [])
  || headSat isPySpace s
  || lastSat isPySpace s
  || specialChars.any (fun c => strHasChar s c)
  || strHasChar s nl
  || decide (pyLower s ∈ reservedWords)
  || headSat (fun c => strHasChar (dashQmAtChars ++ tildeStartChars) c) s

lemma doubleQuotes_eq_nil {s : Str} (h : doubleQuotes s = []) : s = [] := by
  cases s with
  | nil => rfl
  | cons c rest =>
    unfold doubleQuotes at h
    by_cases hc : c = sq <;> simp [hc] at h

lemma length_le_doubleQuotes (s : Str) : s.length ≤ (doubleQuotes s).length := by
  induction s with
  | nil => simp [doubleQuotes]
  | cons c rest ih =>
    unfold doubleQuotes
    by_cases hc : c = sq <;> simp [hc] <;> omega

lemma undouble_double (s : Str) : undoubleQuotes (doubleQuotes s) = s := by
  induction s with
  | nil => rfl
  | cons c rest ih =>
    by_cases hc : c = sq
    · subst hc
      simp [doubleQuotes, undoubleQuotes, ih]
    · rw [show doubleQuotes (c :: rest) = c :: doubleQuotes rest by
        simp [doubleQuotes, hc]]
      cases hd : doubleQuotes rest with
      | nil =>
        have : rest = [] := doubleQuotes_eq_nil hd
        subst this
        simp [undoubleQuotes]
      | cons d ds =>
        show undoubleQuotes (c :: d :: ds) = c :: rest
        rw [undoubleQuotes, if_neg (by simp [hc]), ← hd, ih]

lemma stripOuter_wrap (l : Str) : stripOuter (sq :: (l ++ [sq])) = l := by
  simp [stripOuter]

lemma length_dropWhile_le (p : Char → Bool) (l : Str) :
    (l.dropWhile p).length ≤ l.length :=
  (List.dropWhile_suffix p).sublist.length_le

lemma dropWhile_eq_self_iff_headSat (p : Char → Bool) (s : Str) :
    s.dropWhile p = s ↔ headSat p s = false := by
  cases s with
  | nil => simp [List.dropWhile, headSat]
  | cons a l =>
    simp only [List.dropWhile_cons, headSat]
    cases h : p a with
    | false => simp
    | true =>
      simp only [if_pos rfl]
      constructor
      · intro heq
        have hlen := congrArg List.length heq
        have hle := length_dropWhile_le p l
        simp at hlen
        omega
      · intro h
        exact absurd h (by simp)

lemma pyStrip_eq_self_iff (s : Str) :
    pyStrip s = s ↔ (headSat isPySpace s = false ∧ headSat isPySpace s.reverse = false) := by
  constructor
  · intro h
    have h1 : s.dropWhile isPySpace = s := by
      have hsuf : (s.dropWhile isPySpace) <:+ s := List.dropWhile_suffix _
      have hlen : s.length ≤ (s.dropWhile isPySpace).length := by
        have hl := congrArg List.length h
        simp only [pyStrip, List.length_reverse] at hl
        have h2 := length_dropWhile_le isPySpace ((s.dropWhile isPySpace).reverse)
        simp only [List.length_reverse] at h2
        omega
      exact hsuf.eq_of_length (Nat.le_antisymm (length_dropWhile_le _ _) hlen)
    have h2 : s.reverse.dropWhile isPySpace = s.reverse := by
      have := h
      unfold pyStrip at this
      rw [h1] at this
      have := congrArg List.reverse this
      simpa using this
    exact ⟨(dropWhile_eq_self_iff_headSat _ _).mp h1,
           (dropWhile_eq_self_iff_headSat _ _).mp h2⟩
  · intro ⟨h1, h2⟩
    have e1 : s.dropWhile isPySpace = s := (dropWhile_eq_self_iff_headSat _ _).mpr h1
    have e2 : s.reverse.dropWhile isPySpace = s.reverse :=
      (dropWhile_eq_self_iff_headSat _ _).mpr h2
    unfold pyStrip
    rw [e1, e2, List.reverse_reverse]

lemma headSat_reverse (p : Char → Bool) (s : Str) :
    headSat p s.reverse = lastSat p s := by
  unfold lastSat
  rw [← List.head?_reverse]
  cases s.reverse with
  | nil => simp [headSat]
  | cons c t => simp [headSat]

lemma strip_ne_iff (s : Str) :
    pyStrip s ≠ s ↔ (headSat isPySpace s = true ∨ lastSat isPySpace s = true) := by
  rw [← headSat_reverse]
  constructor
  · intro h
    by_contra hc
    push_neg at hc
    obtain ⟨hA, hB⟩ := hc
    exact h ((pyStrip_eq_self_iff s).mpr
      ⟨Bool.not_eq_true _ ▸ hA, Bool.not_eq_true _ ▸ hB⟩)
  · intro hor heq
    obtain ⟨h1, h2⟩ := (pyStrip_eq_self_iff s).mp heq
    rcases hor with h | h
    · rw [h1] at h; exact Bool.false_ne_true h
    · rw [h2] at h; exact Bool.false_ne_true h

lemma headSat_append_set (A B : Str) (s : Str) :
    (headSat (fun c => strHasChar A c) s = true ∨ headSat (fun c => strHasChar B c) s = true)
      ↔ headSat (fun c => strHasChar (A ++ B) c) s = true := by
  cases s with
  | nil => simp [headSat]
  | cons c t =>
    simp only [headSat]
    induction A with
    | nil => simp [strHasChar]
    | cons a A ih =>
      simp only [List.cons_append, strHasChar, Bool.or_eq_true] at *
      tauto

lemma needs_quotes_eq_claimTrigger (s : Str) : needs_quotes s = claimTrigger s := by
  have h2 := strip_ne_iff s
  have h3 := headSat_append_set dashQmAtChars tildeStartChars s
  rw [Bool.eq_iff_iff]
  unfold needs_quotes claimTrigger
  simp only [Bool.or_eq_true, decide_eq_true_eq]
  tauto

/-- C3: a string is quoted by the emitter exactly when it matches the spec's
trigger list (empty, leading/trailing whitespace, a special character, a
newline, a reserved word up to case, or a marker start character), and every
quoted string round-trips: stripping the outer single quotes and un-doubling
embedded single quotes recovers the original string. -/
theorem yaml_escape_str_quoting_and_roundtrip (s : Str) :
    (yaml_escape_str s = s ↔ claimTrigger s = false)
    ∧ (claimTrigger s = true →
        yaml_escape_str s = sq :: (doubleQuotes s ++ [sq])
        ∧ undoubleQuotes (stripOuter (yaml_escape_str s)) = s) := by
  have hq := needs_quotes_eq_claimTrigger s
  cases h : claimTrigger s with
  | false =>
    have hnq : needs_quotes s = false := by rw [hq, h]
    refine ⟨?_, by intro hc; exact absurd hc (by simp)⟩
    simp [yaml_escape_str, hnq]
  | true =>
    have hnq : needs_quotes s = true := by rw [hq, h]
    have hesc : yaml_escape_str s = sq :: (doubleQuotes s ++ [sq]) := by
      simp [yaml_escape_str, hnq]
    refine ⟨?_, fun _ => ⟨hesc, ?_⟩⟩
    · constructor
      · intro heq
        exfalso
        rw [hesc] at heq
        have hlen := congrArg List.length heq
        have hle := length_le_doubleQuotes s
        simp at hlen
        omega
      · intro hf
        exact absurd hf (by simp)
    · rw [hesc, stripOuter_wrap, undouble_double]

/-- Display values: the nested data the emitter understands (spec section 3).
Numbers are modelled by the integers the tool actually prints. -/
inductive Value where
  | vnull
  | vbool (b : Bool)
  | vint (n : Int)
  | vstr (s : Str)
  | vlist (items : List Value)
  | vdict (entries : List (Str × Value))

/-- Model of `_is_scalar` (source lines 51-52). -/
def is_scalar : Value → Bool
  | .vnull => true
  | .vbool _ => true
  | .vint _ => true
  | .vstr _ => true
  | .vlist _ => false
  | .vdict _ => false

/-- The decimal digit character for `d ≤ 9`. -/
def digitChar (d : Nat) : Char := Char.ofNat (48 + d)

/-- Decimal digits of a natural number, with fuel for structural recursion
(the fuel `n + 1` always suffices). -/
def natDigitsAux : Nat → Nat → Str
  | 0, _ => []
  | fuel + 1, n =>
    if n < 10 then [digitChar n]
    else natDigitsAux fuel (n / 10) ++ [digitChar (n % 10)]

/-- Decimal rendering of a natural number. -/
def natDigits (n : Nat) : Str := natDigitsAux (n + 1) n

/-- Model of Python's `str` on integers. -/
def pyIntStr (n : Int) : Str :=
  if n < 0 then '-' :: natDigits n.natAbs else natDigits n.toNat

/-- A run of `n` indentation spaces (`" " * indent`). -/
def spaces (n : Nat) : Str := List.replicate n ' '

/-- Model of `"\n".join(lines)`. -/
def joinLines : List Str → Str
  | [] => []
  | [l] => l
  | l :: rest => l ++ nl :: joinLines rest

mutual

/-- Model of `yaml_info` (source lines 72-108): render a display value at an
indent.  The list and dict branches build their line lists exactly as the
source loops do. -/
def yaml_info : Value → Nat → Str
  | .vnull, _ => str "null"
  | .vbool b, _ => if b then str "true" else str "false"
  | .vint n, _ => pyIntStr n
  | .vstr s, _ => yaml_escape_str s
  | .vlist [], _ => str "[]"
  | .vlist (item :: rest), ind => joinLines (yaml_list_lines (item :: rest) ind)
  | .vdict [], _ => [lb, rb]
  | .vdict (e :: rest), ind => joinLines (yaml_dict_lines (e :: rest) ind)

/-- The lines the source's list loop appends (source lines 86-91). -/
def yaml_list_lines : List Value → Nat → List Str
  | [], _ => []
  | item :: rest, ind =>
    (if is_scalar item then spaces ind ++ str "- " ++ yaml_info item 0
     else spaces ind ++ str "- " ++ yaml_info item (ind + 2))
      :: yaml_list_lines rest ind

/-- The lines the source's dict loop appends (source lines 97-104). -/
def yaml_dict_lines : List (Str × Value) → Nat → List Str
  | [], _ => []
  | (k, v) :: rest, ind =>
    (if is_scalar v
     then [spaces ind ++ k ++ str ": " ++ yaml_info v 0]
     else [spaces ind ++ k ++ [':'], yaml_info v (ind + 2)])
      ++ yaml_dict_lines rest ind

end

/-- Model of `print_section` (source lines 111-115): separator line, title
line, then the rendered body, with a fallback when the rendering is empty. -/
def print_section (title : Str) (content : Value) : Str :=
  (joinLines [str "----", title ++ [':'],
    if yaml_info content 2 = [] then str "  " ++ [lb, rb] else yaml_info content 2]) ++ [nl]

lemma natDigitsAux_succ_ne_nil (fuel n : Nat) : natDigitsAux (fuel + 1) n ≠ [] := by
  unfold natDigitsAux
  split <;> simp

lemma pyIntStr_ne_nil (n : Int) : pyIntStr n ≠ [] := by
  unfold pyIntStr
  split
  · simp
  · exact natDigitsAux_succ_ne_nil _ _

lemma yaml_escape_str_ne_nil (s : Str) : yaml_escape_str s ≠ [] := by
  unfold yaml_escape_str
  split
  · simp
  · next h =>
    intro hs
    subst hs
    exact h (by decide)

lemma joinLines_cons_ne_nil {a : Str} (rest : List Str) (ha : a ≠ []) :
    joinLines (a :: rest) ≠ [] := by
  cases rest with
  | nil => simpa [joinLines] using ha
  | cons b bs => simp [joinLines]

/-- C9: the empty sequence renders as the literal token of two brackets and
the empty mapping as the literal token of two braces, at every indent level,
and neither rendering contains a newline. -/
theorem yaml_info_empty_collections (ind : Nat) :
    yaml_info (.vlist []) ind = str "[]"
    ∧ yaml_info (.vdict []) ind = [lb, rb]
    ∧ strHasChar (yaml_info (.vlist []) ind) nl = false
    ∧ strHasChar (yaml_info (.vdict []) ind) nl = false := by
  refine ⟨rfl, rfl, ?_, ?_⟩
  · show strHasChar (str "[]") nl = false
    decide
  · show strHasChar [lb, rb] nl = false
    decide

/-- C10: at every indent the emitter returns a non-empty string for every
display value (null, the empty string, and empty collections all have fixed
non-empty renderings), so the empty-rendering fallback branch of
`print_section` is never taken. -/
theorem yaml_info_ne_nil (v : Value) (ind : Nat) (title : Str) :
    yaml_info v ind ≠ []
    ∧ yaml_info .vnull ind = str "null"
    ∧ yaml_info (.vstr []) ind = [sq, sq]
    ∧ yaml_info (.vlist []) ind = str "[]"
    ∧ yaml_info (.vdict []) ind = [lb, rb]
    ∧ print_section title v =
        (joinLines [str "----", title ++ [':'], yaml_info v 2]) ++ [nl] := by
  have hmain : ∀ (w : Value) (i : Nat), yaml_info w i ≠ [] := by
    intro w i
    cases w with
    | vnull => simp [yaml_info, str]
    | vbool b => cases b <;> simp [yaml_info, str]
    | vint n => simpa [yaml_info] using pyIntStr_ne_nil n
    | vstr s => simpa [yaml_info] using yaml_escape_str_ne_nil s
    | vlist items =>
      cases items with
      | nil => simp [yaml_info, str]
      | cons item rest =>
        show joinLines (yaml_list_lines (item :: rest) i) ≠ []
        rw [yaml_list_lines]
        refine joinLines_cons_ne_nil _ ?_
        have e : str "- " = ['-', ' '] := rfl
        split <;> simp [e]
    | vdict entries =>
      cases entries with
      | nil => simp [yaml_info]
      | cons e rest =>
        obtain ⟨k, v⟩ := e
        show joinLines (yaml_dict_lines ((k, v) :: rest) i) ≠ []
        rw [yaml_dict_lines]
        by_cases hv : is_scalar v = true
        · rw [if_pos hv]
          refine joinLines_cons_ne_nil _ ?_
          have e2 : str ": " = [':', ' '] := rfl
          simp [e2]
        · rw [if_neg hv]
          refine joinLines_cons_ne_nil _ ?_
          simp
  refine ⟨hmain v ind, rfl, rfl, rfl, rfl, ?_⟩
  unfold print_section
  rw [if_neg (hmain v 2)]

/-- C4 counterexample: the claim puts a nested (non-scalar) sequence element
on the line(s) following its dash line, so rendering the sequence containing
one nested one-element sequence would need a newline; the code instead puts
the nested rendering on the same line as the dash, producing the single line
of a dash, three spaces, a dash, a space and the digit, with no newline
character at all. -/
theorem yaml_info_nested_seq_inline_cex :
    yaml_info (.vlist [.vlist [.vint 1]]) 0 = str "-   - 1"
    ∧ strHasChar (yaml_info (.vlist [.vlist [.vint 1]]) 0) nl = false := by
  constructor <;> decide

lemma yaml_list_lines_eq_map (items : List Value) (ind : Nat) :
    yaml_list_lines items ind =
      items.map (fun item =>
        spaces ind ++ str "- " ++ yaml_info item (if is_scalar item then 0 else ind + 2)) := by
  induction items with
  | nil => simp [yaml_list_lines]
  | cons item rest ih =>
    rw [yaml_list_lines, List.map_cons, ih]
    by_cases h : is_scalar item = true <;> simp [h]

/-- C4 amended: in a non-empty sequence each element gets its own dash-prefixed
entry, scalar elements rendered inline at indent zero and nested elements
rendered at indent+2 but appended on the same line directly after the dash
prefix (their continuation lines follow on lines of their own). -/
theorem yaml_info_list_amended (items : List Value) (ind : Nat) (h : items ≠ []) :
    yaml_info (.vlist items) ind =
      joinLines (items.map fun item =>
        spaces ind ++ str "- " ++ yaml_info item (if is_scalar item then 0 else ind + 2)) := by
  cases items with
  | nil => exact absurd rfl h
  | cons item rest =>
    show joinLines (yaml_list_lines (item :: rest) ind) = _
    rw [yaml_list_lines_eq_map]

/-- C4 amended witness: the amended statement applied to the one-element
sequence of the integer one at indent zero. -/
theorem yaml_info_list_amended_witness :
    yaml_info (.vlist [.vint 1]) 0 =
      joinLines ([Value.vint 1].map fun item =>
        spaces 0 ++ str "- " ++ yaml_info item (if is_scalar item then 0 else 0 + 2)) :=
  yaml_info_list_amended [.vint 1] 0 (List.cons_ne_nil _ _)

/-- Python dicts as ordered association lists of string keys. -/
abbrev Dict := List (Str × Value)

/-- Model of `d.get(key)` on an association list (first matching key). -/
def dictGet : Dict → Str → Option Value
  | [], _ => none
  | (k, v) :: rest, key => if k = key then some v else dictGet rest key

/-- Python truthiness of a display value (`if not x`). -/
def pyFalsy : Value → Bool
  | .vnull => true
  | .vbool b => !b
  | .vint n => n = 0
  | .vstr s => s.isEmpty
  | .vlist l => l.isEmpty
  | .vdict d => d.isEmpty

/-- The provider error of the spec's data model: the code, message and
optional HTTP status read out of a boto3 `ClientError` payload (source
lines 140-142, after the source's defaulting of missing fields). -/
structure ClientErr where
  code : Str
  message : Str
  status : Option Int

/-- Model of `NOT_CONFIGURED_CODES` (source lines 120-136). -/
def NOT_CONFIGURED_CODES : List Str :=
  [str "NoSuchBucket",
   str "NoSuchTagSet",
   str "NoSuchLifecycleConfiguration",
   str "NoSuchPublicAccessBlockConfiguration",
   str "NoSuchBucketPolicy",
   str "NoSuchBucketLoggingStatus",
   str "NoSuchReplicationConfiguration",
   str "NoSuchEncryptionConfiguration",
   str "NoSuchWebsiteConfiguration",
   str "NoSuchCORSConfiguration",
   str "NoSuchOwnershipControls",
   str "NoSuchAccelerateConfiguration",
   str "NoSuchRequestPaymentConfiguration",
   str "ServerSideEncryptionConfigurationNotFoundError",
   str "NotFound"]

/-- Model of `classify_client_error` (source lines 139-146). -/
def classify_client_error (e : ClientErr) : Str × Str :=
  if e.code ∈ NOT_CONFIGURED_CODES ∨ e.status = some 404
  then (str "not configured", e.code ++ str ": " ++ e.message)
  else (str "error", e.code ++ str ": " ++ e.message)

/-- C1: the classifier yields the not-configured kind exactly when the code is
in the fixed set or the HTTP status is 404; every classification is one of the
two kinds, and the message is always the code and the message joined by a
colon and a space (in particular that is the message of every error-kind
result). -/
theorem classify_client_error_spec (e : ClientErr) :
    ((classify_client_error e).1 = str "not configured"
      ↔ (e.code ∈ NOT_CONFIGURED_CODES ∨ e.status = some 404))
    ∧ ((classify_client_error e).1 = str "not configured"
        ∨ (classify_client_error e).1 = str "error")
    ∧ (classify_client_error e).2 = e.code ++ str ": " ++ e.message := by
  by_cases h : e.code ∈ NOT_CONFIGURED_CODES ∨ e.status = some 404
  · rw [classify_client_error, if_pos h]
    exact ⟨by simpa using h, Or.inl rfl, rfl⟩
  · rw [classify_client_error, if_neg h]
    refine ⟨⟨fun hk => ?_, fun hc => absurd hc h⟩, Or.inr rfl, rfl⟩
    have h2 : str "error" = str "not configured" := hk
    exact absurd h2 (by decide)

/-- Model of `call_s3_getter` (source lines 169-179): the getter either
produces a response dict or fails with a provider error; on success an
optional post-processor is applied, on failure the classified kind selects
one of the two fixed fallback payloads. -/
def call_s3_getter (fn : Except ClientErr Dict) (postprocess : Option (Dict → Value)) :
    Str × Value :=
  match fn with
  | .ok data =>
    (str "ok", match postprocess with
               | some p => p data
               | none => .vdict data)
  | .error e =>
    if (classify_client_error e).1 = str "not configured"
    then (str "not configured", .vdict [(str "status", .vstr (str "not configured"))])
    else (str "error", .vdict [(str "status", .vstr (str "error")),
                               (str "message", .vstr (classify_client_error e).2)])

/-- C2: a getter success yields the ok outcome carrying the (post-processed
when a post-processor is present) payload; a getter failure yields the fixed
single-key not-configured payload exactly when the code is in the fixed set or
the status is 404 — discarding the classified message, 404 catch-all
included — and otherwise the error payload carrying the joined
code-colon-message. -/
theorem call_s3_getter_spec (e : ClientErr) (post : Option (Dict → Value)) (d : Dict) :
    call_s3_getter (.ok d) post
      = (str "ok", match post with
                   | some p => p d
                   | none => .vdict d)
    ∧ call_s3_getter (.error e) post
      = (if e.code ∈ NOT_CONFIGURED_CODES ∨ e.status = some 404
         then (str "not configured", .vdict [(str "status", .vstr (str "not configured"))])
         else (str "error", .vdict [(str "status", .vstr (str "error")),
                (str "message", .vstr (e.code ++ str ": " ++ e.message))])) := by
  refine ⟨rfl, ?_⟩
  have heq : call_s3_getter (.error e) post
      = if (classify_client_error e).1 = str "not configured"
        then (str "not configured", .vdict [(str "status", .vstr (str "not configured"))])
        else (str "error", .vdict [(str "status", .vstr (str "error")),
               (str "message", .vstr (classify_client_error e).2)]) := rfl
  by_cases h : e.code ∈ NOT_CONFIGURED_CODES ∨ e.status = some 404
  · have hcl : classify_client_error e
        = (str "not configured", e.code ++ str ": " ++ e.message) := by
      rw [classify_client_error, if_pos h]
    rw [if_pos h, heq, hcl]
    exact if_pos rfl
  · have hcl : classify_client_error e
        = (str "error", e.code ++ str ": " ++ e.message) := by
      rw [classify_client_error, if_neg h]
    rw [if_neg h, heq, hcl]
    exact if_neg (fun hh =>
      absurd (show str "error" = str "not configured" from hh) (by decide))

/-- Model of `parse_policy` (source lines 182-190), parametrised by the JSON
parser `loads` of the standard library, an external collaborator: a parse is
either a decoded display value or a failure.  A falsy policy value returns
the response unchanged; a non-string policy value makes `json.loads` raise,
landing in the wrapping fallback like a parse failure. -/
def parse_policy (loads : Str → Option Value) (resp : Dict) : Value :=
  match dictGet resp (str "Policy") with
  | none => .vdict resp
  | some p =>
    if pyFalsy p then .vdict resp
    else
      match p with
      | .vstr s =>
        (match loads s with
         | some v => v
         | none => .vdict [(str "Policy", p)])
      | _ => .vdict [(str "Policy", p)]

/-- C5: when the response's policy field holds a string, a well-formed JSON
policy string decodes to the parsed value, and a malformed one (the empty
string included, which every JSON parser rejects) degrades to a mapping still
carrying the raw string unmodified under the policy key; the post-processor is
a total function, so it never fails the run. -/
theorem parse_policy_spec (loads : Str → Option Value) (resp : Dict) (s : Str)
    (hnil : loads [] = none)
    (hp : dictGet resp (str "Policy") = some (.vstr s)) :
    (∀ v, loads s = some v → parse_policy loads resp = v)
    ∧ (loads s = none →
        ∃ entries, parse_policy loads resp = .vdict entries
          ∧ dictGet entries (str "Policy") = some (.vstr s)) := by
  constructor
  · intro v hv
    have hs : s ≠ [] := by
      intro h0
      rw [h0, hnil] at hv
      cases hv
    obtain ⟨c, t, rfl⟩ := List.exists_cons_of_ne_nil hs
    simp [parse_policy, hp, pyFalsy, hv]
  · intro hv
    by_cases hs : s = []
    · subst hs
      refine ⟨resp, ?_, hp⟩
      simp [parse_policy, hp, pyFalsy]
    · obtain ⟨c, t, rfl⟩ := List.exists_cons_of_ne_nil hs
      refine ⟨[(str "Policy", .vstr (c :: t))], ?_, ?_⟩
      · simp [parse_policy, hp, pyFalsy, hv]
      · simp [dictGet]

/-- C5 witness: a response whose policy field holds a one-character string,
under the JSON parser that rejects everything. -/
theorem parse_policy_spec_witness :
    ∃ entries,
      parse_policy (fun _ => none) [(str "Policy", .vstr (str "x"))] = .vdict entries
        ∧ dictGet entries (str "Policy") = some (.vstr (str "x")) :=
  (parse_policy_spec (fun _ => none) [(str "Policy", .vstr (str "x"))] (str "x")
    rfl rfl).2 rfl

lemma usEast1_ne_nil : str "us-east-1" ≠ [] := by decide

/-- Model of `normalize_location` (source lines 193-196): a falsy location
constraint (absent or empty) becomes the default region name. -/
def normalize_location (resp : Dict) : Value :=
  .vdict [(str "LocationConstraint",
    match dictGet resp (str "LocationConstraint") with
    | none => .vstr (str "us-east-1")
    | some v => if pyFalsy v then .vstr (str "us-east-1") else v)]

/-- C6: the location normalizer maps an absent or empty region constraint to
the default region string, passes every other region string through
unchanged, and (for region fields that are absent or strings) never leaves
the field blank or null. -/
theorem normalize_location_spec (resp : Dict) :
    ∃ r, normalize_location resp = .vdict [(str "LocationConstraint", r)]
      ∧ (dictGet resp (str "LocationConstraint") = none
          ∨ dictGet resp (str "LocationConstraint") = some (.vstr []) →
            r = .vstr (str "us-east-1"))
      ∧ (∀ s, s ≠ [] → dictGet resp (str "LocationConstraint") = some (.vstr s) →
            r = .vstr s)
      ∧ ((dictGet resp (str "LocationConstraint") = none
          ∨ ∃ s, dictGet resp (str "LocationConstraint") = some (.vstr s)) →
            r ≠ .vnull ∧ r ≠ .vstr []) := by
  cases hd : dictGet resp (str "LocationConstraint") with
  | none =>
    refine ⟨.vstr (str "us-east-1"), by simp [normalize_location, hd], fun _ => rfl, ?_, ?_⟩
    · intro s hs h
      cases h
    · intro _
      refine ⟨fun hh => Value.noConfusion hh, fun hh => ?_⟩
      injection hh with h2
      exact usEast1_ne_nil h2
  | some v =>
    refine ⟨if pyFalsy v = true then .vstr (str "us-east-1") else v,
      by simp [normalize_location, hd], ?_, ?_, ?_⟩
    · rintro (h | h)
      · cases h
      · injection h with h2
        subst h2
        simp [pyFalsy]
    · intro s hs h
      injection h with h2
      subst h2
      obtain ⟨c, t, rfl⟩ := List.exists_cons_of_ne_nil hs
      simp [pyFalsy]
    · rintro (h | ⟨s, h⟩)
      · cases h
      · injection h with h2
        subst h2
        by_cases hs : s = []
        · subst hs
          have he : (if pyFalsy (Value.vstr []) = true
              then Value.vstr (str "us-east-1") else Value.vstr []) =
              Value.vstr (str "us-east-1") := by simp [pyFalsy]
          rw [he]
          refine ⟨fun hh => Value.noConfusion hh, fun hh => ?_⟩
          injection hh with h2
          exact usEast1_ne_nil h2
        · obtain ⟨c, t, rfl⟩ := List.exists_cons_of_ne_nil hs
          have he : (if pyFalsy (Value.vstr (c :: t)) = true
              then Value.vstr (str "us-east-1") else Value.vstr (c :: t)) =
              Value.vstr (c :: t) := by simp [pyFalsy]
          rw [he]
          refine ⟨fun hh => Value.noConfusion hh, fun hh => ?_⟩
          injection hh with h2
          cases h2

/-- A creation-date field as boto3 may deliver it: a timezone-aware datetime
(modelled abstractly by the ISO-8601 text its `isoformat` call yields,
offset included) or some other already-printable value. -/
inductive CDVal where
  | cdDatetime (iso : Str)
  | cdOther (v : Value)

/-- One entry of the `ListBuckets` response, with its two fields read by the
source (`b.get("Name")`, `b.get("CreationDate")`), each possibly absent. -/
structure RawBucket where
  name : Option Str
  creationDate : Option CDVal

/-- The source's datetime normalization (lines 160-164): a datetime value is
replaced by its `isoformat` text, everything else is kept, absence stays null
once the value is placed in the printed dict. -/
def normCD : Option CDVal → Value
  | none => .vnull
  | some (.cdDatetime iso) => .vstr iso
  | some (.cdOther v) => v

/-- Model of `find_bucket_in_listbuckets` (source lines 156-166): first entry
whose name equals the requested bucket, its creation date normalized; none
when no entry matches. -/
def find_bucket_in_listbuckets : List RawBucket → Str → Option (Option Str × Value)
  | [], _ => none
  | b :: rest, bucket =>
    if b.name = some bucket then some (b.name, normCD b.creationDate)
    else find_bucket_in_listbuckets rest bucket

/-- Rendering of an optional string field read with `.get` (absent is null). -/
def optStrVal : Option Str → Value
  | none => .vnull
  | some s => .vstr s

/-- The not-found message of source line 228. -/
def notFoundMsg (bucket : Str) : Str :=
  str "Bucket not found in ListBuckets for name: " ++ bucket

/-- The Creation section main prints after a successful `ListBuckets`
(source lines 225-231). -/
def creation_section (bs : List RawBucket) (bucket : Str) : Str × Value :=
  match find_bucket_in_listbuckets bs bucket with
  | none => (str "Creation", .vdict [(str "status", .vstr (str "error")),
      (str "message", .vstr (notFoundMsg bucket))])
  | some (nm, cd) => (str "Creation",
      .vdict [(str "Name", optStrVal nm), (str "CreationDate", cd)])

/-- One run's provider responses: each call either succeeds with a payload or
fails with a provider error, which is the only failure mode the per-facet
handlers of main catch. -/
structure World where
  getCallerIdentity : Except ClientErr Dict
  listBuckets : Except ClientErr (List RawBucket)
  facetCall : Str → Except ClientErr Dict

/-- The CallerIdentity section of main (source lines 215-220). -/
def caller_identity_section (w : World) : Str × Value :=
  match w.getCallerIdentity with
  | .ok ident => (str "CallerIdentity", .vdict ident)
  | .error e => (str "CallerIdentity",
      .vdict [(str "status", .vstr (str "error")),
              (str "message", .vstr (classify_client_error e).2)])

/-- The Creation section of main including the `ListBuckets` failure handler
(source lines 222-234). -/
def creation_section_run (w : World) (bucket : Str) : Str × Value :=
  match w.listBuckets with
  | .ok bs => creation_section bs bucket
  | .error e => (str "Creation",
      .vdict [(str "status", .vstr (str "error")),
              (str "message", .vstr (classify_client_error e).2)])

/-- The getter table of main (source lines 237-259): title and optional
post-processor per facet in declaration order; the policy decoder carries the
abstract JSON parser. -/
def facet_table (loads : Str → Option Value) : List (Str × Option (Dict → Value)) :=
  [(str "Location", some normalize_location),
   (str "Versioning", none),
   (str "Encryption", none),
   (str "PublicAccessBlock", none),
   (str "Policy", some (parse_policy loads)),
   (str "Logging", none),
   (str "Tagging", none),
   (str "Lifecycle", none),
   (str "ACL", none),
   (str "PolicyStatus", none),
   (str "OwnershipControls", none),
   (str "CORS", none),
   (str "Website", none),
   (str "Replication", none),
   (str "Accelerate", none),
   (str "RequestPayment", none),
   (str "ObjectLock", none)]

/-- Model of `main` after argument parsing (source lines 210-265): the two
special sections followed by one section per facet-table entry, and the
return value 0. -/
def run_main (loads : Str → Option Value) (w : World) (bucket : Str) :
    List (Str × Value) × Int :=
  (caller_identity_section w
     :: creation_section_run w bucket
     :: (facet_table loads).map
          (fun fp => (fp.1, (call_s3_getter (w.facetCall fp.1) fp.2).2)),
   0)

lemma find_bucket_isSome_iff (bs : List RawBucket) (bucket : Str) :
    (find_bucket_in_listbuckets bs bucket).isSome
      ↔ ∃ b ∈ bs, b.name = some bucket := by
  induction bs with
  | nil => simp [find_bucket_in_listbuckets]
  | cons b rest ih =>
    by_cases h : b.name = some bucket
    · rw [find_bucket_in_listbuckets, if_pos h]
      simp only [Option.isSome_some, true_iff]
      exact ⟨b, List.mem_cons_self b rest, h⟩
    · rw [find_bucket_in_listbuckets, if_neg h, ih]
      constructor
      · rintro ⟨b2, hb2, hname⟩
        exact ⟨b2, List.mem_cons_of_mem _ hb2, hname⟩
      · rintro ⟨b2, hb2, hname⟩
        rcases List.mem_cons.mp hb2 with rfl | hmem
        · exact absurd hname h
        · exact ⟨b2, hmem, hname⟩

lemma find_bucket_name_eq {bs : List RawBucket} {bucket : Str} {nm : Option Str} {cd : Value}
    (h : find_bucket_in_listbuckets bs bucket = some (nm, cd)) : nm = some bucket := by
  induction bs with
  | nil => simp [find_bucket_in_listbuckets] at h
  | cons b rest ih =>
    rw [find_bucket_in_listbuckets] at h
    by_cases hb : b.name = some bucket
    · rw [if_pos hb] at h
      injection h with h2
      rw [Prod.ext_iff] at h2
      exact h2.1.symm.trans hb
    · rw [if_neg hb] at h
      exact ih h

/-- C7: the requested bucket is located in the enumeration by exact equality
on the name field; a located bucket yields the Creation section carrying its
name and its creation date (a datetime normalized to its ISO-8601 text,
offset preserved, by the normalizer); no match yields an error section whose
message carries the literal requested name as a suffix. -/
theorem creation_section_spec (bs : List RawBucket) (bucket : Str) :
    ((find_bucket_in_listbuckets bs bucket).isSome ↔ ∃ b ∈ bs, b.name = some bucket)
    ∧ (∀ nm cd, find_bucket_in_listbuckets bs bucket = some (nm, cd) →
        nm = some bucket
        ∧ creation_section bs bucket
            = (str "Creation",
               .vdict [(str "Name", .vstr bucket), (str "CreationDate", cd)]))
    ∧ (∀ iso, normCD (some (.cdDatetime iso)) = .vstr iso)
    ∧ (find_bucket_in_listbuckets bs bucket = none →
        creation_section bs bucket
          = (str "Creation",
             .vdict [(str "status", .vstr (str "error")),
                     (str "message", .vstr (notFoundMsg bucket))])
        ∧ List.IsSuffix bucket (notFoundMsg bucket)) := by
  refine ⟨find_bucket_isSome_iff bs bucket, ?_, fun _ => rfl, ?_⟩
  · intro nm cd h
    have hnm : nm = some bucket := find_bucket_name_eq h
    subst hnm
    exact ⟨rfl, by simp [creation_section, h, optStrVal]⟩
  · intro h
    exact ⟨by simp [creation_section, h], ⟨str "Bucket not found in ListBuckets for name: ", rfl⟩⟩

/-- C8: in every run in which each provider call either succeeds or fails
with a provider error, main emits exactly one section per facet, titled in
the fixed order (caller identity, creation, then the getter table order),
and returns exit code 0; no facet's failure removes a later section. -/
theorem run_main_spec (loads : Str → Option Value) (w : World) (bucket : Str) :
    (run_main loads w bucket).1.map Prod.fst
      = [str "CallerIdentity", str "Creation",
         str "Location", str "Versioning", str "Encryption", str "PublicAccessBlock",
         str "Policy", str "Logging", str "Tagging", str "Lifecycle",
         str "ACL", str "PolicyStatus", str "OwnershipControls", str "CORS",
         str "Website", str "Replication", str "Accelerate", str "RequestPayment",
         str "ObjectLock"]
    ∧ (run_main loads w bucket).2 = 0 := by
  refine ⟨?_, rfl⟩
  have h1 : (caller_identity_section w).1 = str "CallerIdentity" := by
    unfold caller_identity_section
    cases w.getCallerIdentity <;> rfl
  have h2 : (creation_section_run w bucket).1 = str "Creation" := by
    unfold creation_section_run
    cases w.listBuckets with
    | error e => rfl
    | ok bs =>
      show (creation_section bs bucket).1 = str "Creation"
      unfold creation_section
      cases hf : find_bucket_in_listbuckets bs bucket with
      | none => rfl
      | some p =>
        cases p with
        | mk nm cd => rfl
  simp [run_main, facet_table, h1, h2]

end BucketInfo
